import Mathlib

/-!
Verification of the Flappy-AI reinforcement-learning core.

This file gives a shallow embedding of the numeric and control-flow parts of
the repository's training engine and proves properties of the embedding:

* `src/web_client/src/rl/NeuralNetwork.ts` — the hand-rolled feed-forward
  network (`forward`, `trainStep`, `trainBatch`, `copyWeightsFrom`).
  JavaScript numbers are modelled as `JsNum` (a rational or one of the
  non-finite values NaN/±Infinity); all arithmetic past the finiteness guards
  happens on finite values only and is modelled exactly over `ℚ`.
* `src/web_client/src/rl/training.worker.ts` — the CPU training worker's
  `experience` message handler, warmup gate and epsilon decay.
* the GPU multi-environment training worker (the `runFastModeBatch` /
  `trainOnBatch` counter logic of `src/web_client/src/rl/types.ts`) —
  experience-debt throttling and environment-step-based target syncs.

Mutable arrays are modelled as `List`s threaded through explicit state, with
`getD`/`set` for JavaScript indexed reads/writes.
-/

/-- A JavaScript number: either a finite value (modelled exactly as a
rational) or one of the non-finite values NaN, +Infinity, -Infinity. -/
inductive JsNum where
  | fin : ℚ → JsNum
  | nan : JsNum
  | posInf : JsNum
  | negInf : JsNum
deriving DecidableEq

/-- `Number.isFinite`. -/
def JsNum.isFinite : JsNum → Bool
  | fin _ => true
  | _ => false

/-- The finite payload of a `JsNum` (only used after a finiteness guard). -/
def JsNum.toQ : JsNum → ℚ
  | fin q => q
  | _ => 0

/-- The activation kind of a layer (`'relu' | 'linear'`). -/
inductive Activation where
  | relu : Activation
  | linear : Activation
deriving DecidableEq

/-- One dense layer, mirroring the `Layer` interface of `NeuralNetwork.ts`:
a `[inputSize][outputSize]` weight matrix, a bias vector, an activation, and
the scratch caches written by the forward pass for backprop. -/
structure Layer where
  weights : List (List ℚ)
  biases : List ℚ
  activation : Activation
  lastInput : Option (List ℚ) := none
  lastOutput : Option (List ℚ) := none
  lastPreActivation : Option (List ℚ) := none
deriving DecidableEq

instance : Inhabited Layer := ⟨⟨[], [], Activation.linear, none, none, none⟩⟩

/-- The `NeuralNetwork` class state: ordered layers and a learning rate. -/
structure NeuralNetwork where
  layers : List Layer
  learningRate : ℚ
deriving DecidableEq

/-- `Math.max(lo, Math.min(hi, x))`, the clamping pattern used throughout
`NeuralNetwork.ts`. -/
def jsClamp (lo hi x : ℚ) : ℚ := max lo (min hi x)

/-- `Math.sign` on a finite value. -/
def jsSign (x : ℚ) : ℚ := if 0 < x then 1 else if x < 0 then -1 else 0

/-- `arr.map((v, i) => f i v)` for a JavaScript array: the index-aware map
used to model in-place elementwise update loops (out-of-range reads inside
`f` are made explicit by the callers via `getD`). -/
def jsMapIdx (d : α) (f : ℕ → α → β) (l : List α) : List β :=
  (List.range l.length).map (fun i => f i (l.getD i d))

/-- `NeuralNetwork.GRAD_CLIP`. -/
def GRAD_CLIP : ℚ := 1

/-- `NeuralNetwork.WEIGHT_CLIP`. -/
def WEIGHT_CLIP : ℚ := 10

/-- The pre-activation of output unit `j` of a layer on input `current`:
`sum = biases[j] + Σ_i current[i] * weights[i][j]`, clamped to `[-1e6, 1e6]`
(`NeuralNetwork.ts`, `forward`). -/
def preActivationAt (current : List ℚ) (L : Layer) (j : ℕ) : ℚ :=
  jsClamp (-1000000) 1000000
    ((List.range current.length).foldl
      (fun sum i => sum + current.getD i 0 * ((L.weights.getD i []).getD j 0))
      (L.biases.getD j 0))

/-- One layer of the forward pass: computes the clamped pre-activation
vector, applies the activation, and records the `lastInput`,
`lastPreActivation` and `lastOutput` caches exactly as the source does. -/
def layerForward (current : List ℚ) (L : Layer) : Layer × List ℚ :=
  let pre := (List.range L.biases.length).map (preActivationAt current L)
  let out := pre.map (fun x =>
    match L.activation with
    | Activation.relu => max 0 x
    | Activation.linear => x)
  ({ L with lastInput := some current, lastPreActivation := some pre,
            lastOutput := some out }, out)

/-- The forward pass over the layer list, threading the running activation
and the cache-updated layers. -/
def forwardLayers : List Layer → List ℚ → List Layer × List ℚ
  | [], cur => ([], cur)
  | L :: rest, cur =>
    let fr := layerForward cur L
    let rr := forwardLayers rest fr.2
    (fr.1 :: rr.1, rr.2)

/-- `this.layers[this.layers.length - 1].biases.length`: the output
dimension used for the all-zero short-circuit vector. -/
def NeuralNetwork.outputDim (net : NeuralNetwork) : ℕ :=
  match net.layers.getLast? with
  | some L => L.biases.length
  | none => 0

/-- `NeuralNetwork.forward`: if any input entry is non-finite, return an
all-zero vector of the output dimension without touching any state;
otherwise run the layers, recording caches.  The source's final non-finite
output check (which would trigger `resetWeights`) cannot fire in exact
rational arithmetic, so that dead branch is not modelled. -/
def NeuralNetwork.forward (net : NeuralNetwork) (input : List JsNum) :
    NeuralNetwork × List ℚ :=
  if input.any (fun x => !x.isFinite) then
    (net, List.replicate net.outputDim 0)
  else
    let r := forwardLayers net.layers (input.map JsNum.toQ)
    ({ net with layers := r.1 }, r.2)

/-- `NeuralNetwork.predict` simply forwards. -/
def NeuralNetwork.predict (net : NeuralNetwork) (input : List JsNum) :
    NeuralNetwork × List ℚ :=
  net.forward input

/-- Huber loss of the error (`trainStep`):
`0.5·e²` if `|e| < 1`, else `|e| − 0.5`. -/
def huberLoss (error : ℚ) : ℚ :=
  if |error| < 1 then 1/2 * error * error else |error| - 1/2

/-- The gradient seeded at the output (`trainStep`):
`−e` if `|e| < 1`, else `−sign(e)`. -/
def huberGrad (error : ℚ) : ℚ :=
  if |error| < 1 then -error else -(jsSign error)

/-- `new Array(n).fill(0); outputGrad[action] = g`. -/
def seedOutputGrad (n action : ℕ) (g : ℚ) : List ℚ :=
  (List.replicate n (0 : ℚ)).set action g

/-- Gradient through the activation: for ReLU, pass the incoming gradient
only where the recorded pre-activation is strictly positive
(`preAct[i] > 0 ? g : 0`); identity for linear layers. -/
def reluGate (act : Activation) (preAct currentGrad : List ℚ) : List ℚ :=
  jsMapIdx 0 (fun i g =>
    match act with
    | Activation.relu => if 0 < preAct.getD i 0 then g else 0
    | Activation.linear => g) currentGrad

/-- Clip a gradient vector entrywise to `[-GRAD_CLIP, GRAD_CLIP]`. -/
def clipGrad (g : List ℚ) : List ℚ :=
  g.map (fun x => jsClamp (-GRAD_CLIP) GRAD_CLIP x)

/-- The bias update loop: `biases[j] -= lr * clipped[j]` followed by a clamp
to `[-WEIGHT_CLIP, WEIGHT_CLIP]`. -/
def updateBiases (lr : ℚ) (biases clipped : List ℚ) : List ℚ :=
  jsMapIdx 0 (fun j b =>
    jsClamp (-WEIGHT_CLIP) WEIGHT_CLIP (b - lr * clipped.getD j 0)) biases

/-- The body of the inner `j` loop of `trainStep`'s weight update for a
fixed input index `i`: read the current weight, accumulate
`inputGrad[i] += currentWeight * clipped[j]` (the pre-update snapshot), then
write the clamped updated weight.  State is the pair
(weight matrix, input-gradient vector). -/
def weightLoopInner (lr x : ℚ) (clipped : List ℚ) (i bn : ℕ)
    (st : List (List ℚ) × List ℚ) : List (List ℚ) × List ℚ :=
  (List.range bn).foldl (fun st j =>
    let w := st.1
    let ig := st.2
    let currentWeight := (w.getD i []).getD j 0
    let ig2 := ig.set i (ig.getD i 0 + currentWeight * clipped.getD j 0)
    let w2 := w.set i ((w.getD i []).set j
      (jsClamp (-WEIGHT_CLIP) WEIGHT_CLIP
        (currentWeight - lr * (x * clipped.getD j 0))))
    (w2, ig2)) st

/-- The double loop of `trainStep` over `i < input.length`,
`j < biases.length`, starting from the layer's weights and
`inputGrad = new Array(input.length).fill(0)`. -/
def updateWeights (lr : ℚ) (input clipped : List ℚ) (w0 : List (List ℚ))
    (bn : ℕ) : List (List ℚ) × List ℚ :=
  (List.range input.length).foldl
    (fun st i => weightLoopInner lr (input.getD i 0) clipped i bn st)
    (w0, List.replicate input.length (0 : ℚ))

/-- Closed form of one updated weight row: entries `j < bn` become
`clamp(w - lr·(input_i·clipped_j))`, the rest are untouched. -/
def rowUpdate (lr x : ℚ) (clipped : List ℚ) (bn : ℕ) (row : List ℚ) :
    List ℚ :=
  jsMapIdx 0 (fun j v =>
    if j < bn then
      jsClamp (-WEIGHT_CLIP) WEIGHT_CLIP (v - lr * (x * clipped.getD j 0))
    else v) row

/-- `Σ_{j < bn} row[j] * clipped[j]`: the input-gradient contribution of one
weight row, evaluated on a fixed (pre-update) row. -/
def colDot (row clipped : List ℚ) (bn : ℕ) : ℚ :=
  ((List.range bn).map (fun j => row.getD j 0 * clipped.getD j 0)).sum

/-- Closed form of the whole updated weight matrix. -/
def weightsAfterUpdate (lr : ℚ) (input clipped : List ℚ) (bn : ℕ)
    (w0 : List (List ℚ)) : List (List ℚ) :=
  jsMapIdx [] (fun i row =>
    if i < input.length then rowUpdate lr (input.getD i 0) clipped bn row
    else row) w0

/-- The input gradient expressed as a function of the weight matrix `w0`
alone: entry `i` is `Σ_{j < bn} w0[i][j] * clipped[j]`. -/
def inputGradOfWeights (input clipped : List ℚ) (w0 : List (List ℚ))
    (bn : ℕ) : List ℚ :=
  jsMapIdx 0 (fun i _ => colDot (w0.getD i []) clipped bn) input

/-- The per-layer backward step of `trainStep`: gate the incoming gradient
through the activation, clip it, update biases, run the weight/input-grad
double loop, and clip the propagated input gradient. -/
def layerBackward (lr : ℚ) (currentGrad : List ℚ) (L : Layer) :
    Layer × List ℚ :=
  let input := L.lastInput.getD []
  let preAct := L.lastPreActivation.getD []
  let clipped := clipGrad (reluGate L.activation preAct currentGrad)
  let biases2 := updateBiases lr L.biases clipped
  let wi := updateWeights lr input clipped L.weights L.biases.length
  ({ L with weights := wi.1, biases := biases2 }, clipGrad wi.2)

/-- The backward pass over the layer list in source order: the last layer is
processed first (the source iterates `l = layers.length - 1 … 0`), threading
the propagated gradient towards the first layer. -/
def backwardLayers (lr : ℚ) : List Layer → List ℚ → List Layer × List ℚ
  | [], g => ([], g)
  | L :: rest, g =>
    let rr := backwardLayers lr rest g
    let lb := layerBackward lr rr.2 L
    (lb.1 :: rr.1, lb.2)

/-- `NeuralNetwork.trainStep`: guard the target for finiteness (returning 0
and mutating nothing when non-finite), run the forward pass, compute the
Huber loss and output-seed gradient for the taken action, and run the
backward pass.  The source's check `Number.isFinite(error)` cannot fail in
exact rational arithmetic once the target is finite, so it is not modelled. -/
def NeuralNetwork.trainStep (net : NeuralNetwork) (state : List JsNum)
    (action : ℕ) (target : JsNum) : NeuralNetwork × ℚ :=
  if !target.isFinite then (net, 0)
  else
    let fr := net.forward state
    let qValues := fr.2
    let predicted := qValues.getD action 0
    let error := target.toQ - predicted
    let outputGrad := seedOutputGrad qValues.length action (huberGrad error)
    let br := backwardLayers fr.1.learningRate fr.1.layers outputGrad
    ({ fr.1 with layers := br.1 }, huberLoss error)

/-- `NeuralNetwork.trainBatch`: sequential `trainStep` over the samples,
returning the mean loss. -/
def NeuralNetwork.trainBatch (net : NeuralNetwork) (states : List (List JsNum))
    (actions : List ℕ) (targets : List JsNum) : NeuralNetwork × ℚ :=
  let r := (List.range states.length).foldl (fun acc i =>
    let ts := acc.1.trainStep (states.getD i []) (actions.getD i 0)
      (targets.getD i JsNum.nan)
    (ts.1, acc.2 + ts.2)) (net, (0 : ℚ))
  (r.1, r.2 / (states.length : ℚ))

/-- `NeuralNetwork.copyWeightsFrom`: entrywise copy of the source network's
weights and biases into the destination's shape (caches untouched). -/
def NeuralNetwork.copyWeightsFrom (dst src : NeuralNetwork) : NeuralNetwork :=
  { dst with layers := jsMapIdx default (fun l L =>
      let sw := (src.layers.getD l default).weights
      let sb := (src.layers.getD l default).biases
      { L with
        weights := jsMapIdx [] (fun i row =>
          jsMapIdx 0 (fun j _ => (sw.getD i []).getD j 0) row) L.weights,
        biases := jsMapIdx 0 (fun j _ => sb.getD j 0) L.biases }) dst.layers }

/-- Well-formedness of the layer chain relative to an input dimension: each
layer's weight matrix has one row per input and one column per bias, and its
output feeds the next layer. -/
def layersWF : ℕ → List Layer → Prop
  | _, [] => True
  | d, L :: rest =>
    (L.weights.length = d ∧ ∀ row ∈ L.weights, row.length = L.biases.length) ∧
      layersWF L.biases.length rest

/-- Decidability of `layersWF`, so witnesses can discharge it by `decide`. -/
def layersWFDec : (d : ℕ) → (ls : List Layer) → Decidable (layersWF d ls)
  | _, [] => Decidable.isTrue trivial
  | _, L :: rest =>
    have : Decidable (layersWF L.biases.length rest) := layersWFDec _ rest
    inferInstanceAs (Decidable (_ ∧ _))

instance (d : ℕ) (ls : List Layer) : Decidable (layersWF d ls) :=
  layersWFDec d ls

/-- Well-formedness of a network for inputs of dimension `d`. -/
def NeuralNetwork.wf (net : NeuralNetwork) (d : ℕ) : Prop :=
  layersWF d net.layers

instance (net : NeuralNetwork) (d : ℕ) : Decidable (net.wf d) :=
  inferInstanceAs (Decidable (layersWF d net.layers))

/-- A replay transition (`ReplayBuffer.ts` / worker messages). -/
structure Transition where
  state : List JsNum
  action : ℕ
  reward : ℚ
  nextState : List JsNum
  done : Bool
deriving DecidableEq

instance : Inhabited Transition := ⟨⟨[], 0, 0, [], false⟩⟩

/-- Modelled from the spec: the repository's `ReplayBuffer` implementation
(imported as `./ReplayBuffer` by both workers) is not among the provided
sources.  Per the spec (§3, §4.2) it is an ordered ring of capacity `cap`
whose insert appends and, once full, overwrites the oldest slot. -/
def ringAdd (cap : ℕ) (buf : List Transition) (t : Transition) :
    List Transition :=
  if buf.length < cap then buf ++ [t] else buf.tail ++ [t]

/-- Modelled from the spec: `canSample(n)` holds when the store holds at
least `n` transitions (the `StarvationCondition` guard of §7). -/
def canSample (buf : List Transition) (n : ℕ) : Bool :=
  decide (n ≤ buf.length)

/-- Modelled from the spec: `sample(n)` draws `n` uniformly random indices;
randomness is modelled by an explicit index oracle. -/
def sampleOracle (oracle : List ℕ) (buf : List Transition) (n : ℕ) :
    List Transition :=
  (List.range n).map (fun k => buf.getD ((oracle.getD k 0) % buf.length)
    default)

/-- The `DQNConfig` of `WorkerDQNAgent.ts`. -/
structure DQNConfig where
  inputDim : ℕ
  hiddenLayers : List ℕ
  actionDim : ℕ
  learningRate : ℚ
  gamma : ℚ
  batchSize : ℕ
  bufferSize : ℕ
  epsilonStart : ℚ
  epsilonEnd : ℚ
  epsilonDecaySteps : ℕ
  targetUpdateFreq : ℕ
deriving DecidableEq

/-- `const WARMUP_SIZE = 10000` of the CPU training worker
(`training.worker.ts`). -/
def WARMUP_SIZE : ℕ := 10000

/-- The CPU training worker's module-level state relevant to the
`experience` path (`training.worker.ts`), plus the ghost counter
`trainEntries` recording how many times `trainOnBatch` was entered. -/
structure WorkerState where
  policyNetwork : NeuralNetwork
  targetNetwork : NeuralNetwork
  replayBuffer : List Transition
  config : DQNConfig
  steps : ℕ
  lastLoss : ℚ
  experienceCount : ℕ
  epsilon : ℚ
  autoDecayEnabled : Bool
  decayStartEpsilon : ℚ
  decayStartStep : ℕ
  trainFreq : ℕ
  trainEntries : ℕ
deriving DecidableEq

/-- `isInWarmup()`: buffer occupancy below the warmup threshold. -/
def isInWarmup (s : WorkerState) : Bool :=
  decide (s.replayBuffer.length < WARMUP_SIZE)

/-- `Math.max(...xs)` on a nonempty spread (the empty case, which would be
`-Infinity` in JavaScript, is unreachable at the call site because the batch
is nonempty). -/
def jsMaxList : List ℚ → ℚ
  | [] => 0
  | x :: xs => xs.foldl max x

/-- The target-computation loop of the worker's `trainOnBatch`: for each
batch transition, predict next-state Q-values with the target network
(which records its caches), and take `reward + (done ? 0 : γ·maxNextQ)`. -/
def computeTargets (gamma : ℚ) (tn : NeuralNetwork)
    (batch : List Transition) : NeuralNetwork × List JsNum :=
  batch.foldl (fun acc t =>
    let pr := acc.1.predict t.nextState
    let maxNextQ := jsMaxList pr.2
    (pr.1, acc.2 ++ [JsNum.fin (t.reward +
      (if t.done then 0 else gamma * maxNextQ))])) (tn, [])

/-- The CPU worker's `trainOnBatch`: bail out if the batch cannot be
sampled; otherwise sample, compute targets, train the policy network, bump
the training-step counter, and sync the target network every
`targetUpdateFreq` steps. -/
def trainOnBatch (oracle : List ℕ) (s : WorkerState) : WorkerState :=
  if !canSample s.replayBuffer s.config.batchSize then s
  else
    let batch := sampleOracle oracle s.replayBuffer s.config.batchSize
    let ct := computeTargets s.config.gamma s.targetNetwork batch
    let tb := s.policyNetwork.trainBatch (batch.map (fun t => t.state))
      (batch.map (fun t => t.action)) ct.2
    let s2 := { s with policyNetwork := tb.1, targetNetwork := ct.1,
                       lastLoss := tb.2, steps := s.steps + 1 }
    if s2.steps % s2.config.targetUpdateFreq == 0 then
      { s2 with targetNetwork :=
          s2.targetNetwork.copyWeightsFrom s2.policyNetwork }
    else s2

/-- The linear epsilon-decay recomputation of `updateEpsilon()`:
`ε = ε₀ + min(1, (steps − decayStartStep)/epsilonDecaySteps) · (εEnd − ε₀)`. -/
def updateEpsilonVal (decayStartEpsilon epsilonEnd : ℚ)
    (epsilonDecaySteps steps decayStartStep : ℕ) : ℚ :=
  decayStartEpsilon +
    min 1 (((steps : ℚ) - (decayStartStep : ℚ)) / (epsilonDecaySteps : ℚ)) *
      (epsilonEnd - decayStartEpsilon)

/-- `updateEpsilon()` on the worker state (no-op when auto-decay is off). -/
def updateEpsilonW (s : WorkerState) : WorkerState :=
  if s.autoDecayEnabled then
    { s with epsilon := (updateEpsilonVal s.decayStartEpsilon
        s.config.epsilonEnd s.config.epsilonDecaySteps s.steps
        s.decayStartStep) }
  else s

/-- The `case 'experience'` handler: append the transition to the ring,
bump the experience counter, and train only when out of warmup, on the
`trainFreq` cadence, and with a samplable batch.  The ghost counter
`trainEntries` records entries into `trainOnBatch`. -/
def handleExperience (oracle : List ℕ) (s : WorkerState) (t : Transition) :
    WorkerState :=
  let s1 := { s with
    replayBuffer := ringAdd s.config.bufferSize s.replayBuffer t,
    experienceCount := s.experienceCount + 1 }
  if !(isInWarmup s1) && (s1.experienceCount % s1.trainFreq == 0) &&
      canSample s1.replayBuffer s1.config.batchSize then
    updateEpsilonW (trainOnBatch oracle
      { s1 with trainEntries := s1.trainEntries + 1 })
  else s1

/-- The `case 'init'` handler's state: zeroed counters, empty buffer,
epsilon at `epsilonStart`, target network copied from the policy network,
`trainFreq` at its default 8. -/
def initWorkerState (cfg : DQNConfig) (pn tn : NeuralNetwork) : WorkerState :=
  { policyNetwork := pn
    targetNetwork := tn.copyWeightsFrom pn
    replayBuffer := []
    config := cfg
    steps := 0
    lastLoss := 0
    experienceCount := 0
    epsilon := cfg.epsilonStart
    autoDecayEnabled := true
    decayStartEpsilon := cfg.epsilonStart
    decayStartStep := 0
    trainFreq := 8
    trainEntries := 0 }

/-- A run of the worker: `init` followed by a sequence of `experience`
messages, each carrying its transition and a sampling oracle. -/
def runExperiences (cfg : DQNConfig) (pn tn : NeuralNetwork)
    (msgs : List (Transition × List ℕ)) : WorkerState :=
  msgs.foldl (fun s m => handleExperience m.2 s m.1)
    (initWorkerState cfg pn tn)

/-- `const WARMUP_SIZE = 50000` of the GPU multi-environment worker. -/
def GPU_WARMUP_SIZE : ℕ := 50000

/-- `const TARGET_TRAIN_RATIO = 8`: environment steps per training update. -/
def targetTrainRatio : ℕ := 8

/-- `const TARGET_UPDATE_ENV_STEPS = 10000`. -/
def TARGET_UPDATE_ENV_STEPS : ℕ := 10000

/-- `const MAX_TRAIN_BATCHES_PER_LOOP = 512`. -/
def MAX_TRAIN_BATCHES_PER_LOOP : ℕ := 512

/-- `getOptimalBatchSize(birds)` of the GPU worker. -/
def getOptimalBatchSize (birds : ℕ) : ℕ :=
  if 2000 ≤ birds then 512
  else if 500 ≤ birds then 256
  else if 100 ≤ birds then 128
  else 64

/-- The GPU fast-mode worker's counter state.  The TensorFlow network
contents (`NeuralNetworkTF.ts`, not among the provided sources) do not feed
back into this control flow, so only the counters are modelled; the replay
buffer is modelled by its ring occupancy (spec §3: `size = min(size+adds,
cap)`), which is all the control flow reads.  `syncs` is a ghost log of the
`fastTotalSteps` value at each target-network copy, newest first. -/
structure GpuState where
  bufferSize : ℕ
  envSteps : ℕ
  debt : ℕ
  trainCallCount : ℕ
  lastTargetUpdate : ℕ
  syncs : List ℕ
deriving DecidableEq

/-- The GPU worker's `trainOnBatch` as it affects the counters: bail out if
the batch cannot be sampled, otherwise count the training call and copy the
target network when at least `TARGET_UPDATE_ENV_STEPS` environment steps
have elapsed since the last copy. -/
def gpuTrainOnBatch (batch : ℕ) (s : GpuState) : GpuState :=
  if s.bufferSize < batch then s
  else
    let s1 := { s with trainCallCount := s.trainCallCount + 1 }
    if TARGET_UPDATE_ENV_STEPS ≤ s1.envSteps - s1.lastTargetUpdate then
      { s1 with lastTargetUpdate := s1.envSteps,
                syncs := s1.envSteps :: s1.syncs }
    else s1

/-- The inner drain loop of `runFastModeBatch`: while the experience debt is
at least `targetTrainRatio`, the batch is samplable and the iteration cap is
not reached, train once and pay off `targetTrainRatio` of debt; the
wall-clock budget check after each iteration is modelled by the `breaks`
oracle. -/
def gpuDrain (batch : ℕ) : ℕ → List Bool → GpuState → GpuState
  | 0, _, s => s
  | fuel + 1, breaks, s =>
    if targetTrainRatio ≤ s.debt ∧ batch ≤ s.bufferSize then
      let s1 := gpuTrainOnBatch batch s
      let s2 := { s1 with debt := s1.debt - targetTrainRatio }
      match breaks with
      | [] => gpuDrain batch fuel [] s2
      | b :: rest => if b then s2 else gpuDrain batch fuel rest s2
    else s

/-- One iteration of the `runFastModeBatch` step loop: `stepAllBirds()`
appends `n` transitions (one per parallel environment), each counted in
`fastTotalSteps` and in the experience debt; then, when out of warmup with a
samplable batch and enough debt, run the drain loop with fuel
`MAX_TRAIN_BATCHES_PER_LOOP`. -/
def gpuTick (batch cap n : ℕ) (breaks : List Bool) (s : GpuState) :
    GpuState :=
  let s1 := { s with bufferSize := min (s.bufferSize + n) cap,
                     envSteps := s.envSteps + n,
                     debt := s.debt + n }
  if ¬(s1.bufferSize < GPU_WARMUP_SIZE) ∧ batch ≤ s1.bufferSize ∧
      targetTrainRatio ≤ s1.debt then
    gpuDrain batch MAX_TRAIN_BATCHES_PER_LOOP breaks s1
  else s1

/-- A fast-mode run: a sequence of step-loop iterations, each with its
per-tick environment count and wall-clock-break oracle. -/
def gpuRun (batch cap : ℕ) (ticks : List (ℕ × List Bool)) (s : GpuState) :
    GpuState :=
  ticks.foldl (fun s t => gpuTick batch cap t.1 t.2 s) s

/-- The state set up by `startFastMode` from a fresh `init`/`reset`:
zeroed counters and debt, empty buffer, no syncs. -/
def gpuStart : GpuState :=
  { bufferSize := 0, envSteps := 0, debt := 0, trainCallCount := 0,
    lastTargetUpdate := 0, syncs := [] }

/-- Environment-step counts between consecutive target syncs (newest
first). -/
def syncGaps (s : GpuState) : List ℕ :=
  List.zipWith (fun a b => a - b) s.syncs s.syncs.tail

/-- Throttle invariant of the GPU fast loop: environment steps always cover
`targetTrainRatio` times the training updates plus the outstanding debt. -/
def gpuInv (s : GpuState) : Prop :=
  targetTrainRatio * s.trainCallCount + s.debt ≤ s.envSteps

/-- Sync invariant of the GPU fast loop: the last-sync marker is the newest
entry of the ghost sync log, never ahead of the environment-step counter,
and consecutive syncs are at least `TARGET_UPDATE_ENV_STEPS` apart. -/
def gpuSyncInv (s : GpuState) : Prop :=
  s.lastTargetUpdate ≤ s.envSteps ∧
  s.lastTargetUpdate = s.syncs.headD 0 ∧
  List.Chain' (fun a b => b + TARGET_UPDATE_ENV_STEPS ≤ a) s.syncs

/-- A small well-formed 1-input network (ReLU hidden layer, linear output)
used as a concrete evaluation point. -/
def smallNet : NeuralNetwork :=
  { layers := [⟨[[2]], [0], Activation.relu, none, none, none⟩,
               ⟨[[3]], [0], Activation.linear, none, none, none⟩],
    learningRate := 1/100 }

/-- A network whose hidden ReLU unit is dead on input `[-1]` and whose
incoming weight `20` lies outside the clamp interval `[-10, 10]`. -/
def deadNetBig : NeuralNetwork :=
  { layers := [⟨[[20]], [0], Activation.relu, none, none, none⟩,
               ⟨[[1]], [0], Activation.linear, none, none, none⟩],
    learningRate := 1/100 }

/-- Like `deadNetBig` but with the incoming weight `5` inside the clamp
interval. -/
def deadNetSmall : NeuralNetwork :=
  { layers := [⟨[[5]], [0], Activation.relu, none, none, none⟩,
               ⟨[[1]], [0], Activation.linear, none, none, none⟩],
    learningRate := 1/100 }

/-- A concrete `DQNConfig` with the library defaults of `WorkerDQNAgent.ts`
(scaled-down batch size for evaluation). -/
def wCfg : DQNConfig :=
  { inputDim := 1, hiddenLayers := [1], actionDim := 1,
    learningRate := 1/100, gamma := 99/100, batchSize := 2,
    bufferSize := 50000, epsilonStart := 1, epsilonEnd := 1/20,
    epsilonDecaySteps := 10, targetUpdateFreq := 5 }

/-! ## List helper lemmas -/

theorem listGetD_set_eq (l : List α) (i : ℕ) (h : i < l.length) (a d : α) :
    (l.set i a).getD i d = a := by
  induction l generalizing i with
  | nil => simp at h
  | cons x xs ih =>
    cases i with
    | zero => simp
    | succ n => simpa using ih n (by simpa using h) 

theorem listGetD_set_ne (l : List α) (i j : ℕ) (h : i ≠ j) (a d : α) :
    (l.set i a).getD j d = l.getD j d := by
  induction l generalizing i j with
  | nil => simp
  | cons x xs ih =>
    cases i with
    | zero =>
      cases j with
      | zero => exact absurd rfl h
      | succ m => simp
    | succ n =>
      cases j with
      | zero => simp
      | succ m => simpa using ih n m (fun hh => h (by simp [hh]))

theorem listSet_getD_self (l : List α) (i : ℕ) (d : α) :
    l.set i (l.getD i d) = l := by
  induction l generalizing i with
  | nil => simp
  | cons x xs ih =>
    cases i with
    | zero => simp
    | succ n => simpa using ih n

theorem listExtGetD (l₁ l₂ : List α) (d : α) (hl : l₁.length = l₂.length)
    (h : ∀ i < l₁.length, l₁.getD i d = l₂.getD i d) : l₁ = l₂ := by
  induction l₁ generalizing l₂ with
  | nil => cases l₂ with
    | nil => rfl
    | cons y ys => simp at hl
  | cons x xs ih =>
    cases l₂ with
    | nil => simp at hl
    | cons y ys =>
      have h0 := h 0 (by simp)
      simp only [List.getD_cons_zero] at h0
      subst h0
      have := ih ys (by simpa using hl)
        (fun i hi => by simpa using h (i + 1) (by simpa using hi))
      simp [this]

theorem rangeMap_getD (n : ℕ) (f : ℕ → β) (i : ℕ) (d : β) :
    ((List.range n).map f).getD i d = if i < n then f i else d := by
  by_cases h : i < n
  · rw [List.getD_eq_getElem _ _ (by simpa using h)]
    simp [h]
  · rw [List.getD_eq_default _ _ (by simpa using Nat.le_of_not_lt h)]
    simp [h]

theorem jsMapIdx_length (d : α) (f : ℕ → α → β) (l : List α) :
    (jsMapIdx d f l).length = l.length := by
  simp [jsMapIdx]

theorem jsMapIdx_getD (d : α) (f : ℕ → α → β) (l : List α) (i : ℕ) (d2 : β) :
    (jsMapIdx d f l).getD i d2 =
      if i < l.length then f i (l.getD i d) else d2 := by
  unfold jsMapIdx
  rw [rangeMap_getD]

theorem jsMapIdx_self (d : α) (l : List α) :
    jsMapIdx d (fun _ v => v) l = l := by
  refine listExtGetD _ _ d (jsMapIdx_length d _ l) (fun i hi => ?_)
  rw [jsMapIdx_getD]
  rw [jsMapIdx_length] at hi
  simp [hi]

theorem jsMapIdx_mem (d : α) (f : ℕ → α → β) (l : List α) (b : β)
    (hb : b ∈ jsMapIdx d f l) :
    ∃ i, i < l.length ∧ b = f i (l.getD i d) := by
  simp only [jsMapIdx, List.mem_map, List.mem_range] at hb
  obtain ⟨i, hi, he⟩ := hb
  exact ⟨i, hi, he.symm⟩

theorem listSet_oob (l : List α) (i : ℕ) (h : l.length ≤ i) (a : α) :
    l.set i a = l := by
  induction l generalizing i with
  | nil => rfl
  | cons x xs ih =>
    cases i with
    | zero => simp at h
    | succ n => simpa using ih n (by simpa using h)

theorem listSet_set (l : List α) (i : ℕ) (a b : α) :
    (l.set i a).set i b = l.set i b := by
  induction l generalizing i with
  | nil => rfl
  | cons x xs ih =>
    cases i with
    | zero => rfl
    | succ n => simpa using ih n

theorem listGetD_replicate (n : ℕ) (a : α) (i : ℕ) (d : α) :
    (List.replicate n a).getD i d = if i < n then a else d := by
  induction n generalizing i with
  | zero => simp
  | succ m ih =>
    cases i with
    | zero => simp
    | succ k => simpa [List.replicate_succ] using ih k

theorem le_jsClamp (lo hi x : ℚ) : lo ≤ jsClamp lo hi x := le_max_left _ _

theorem jsClamp_le (lo hi x : ℚ) (h : lo ≤ hi) : jsClamp lo hi x ≤ hi :=
  max_le h (min_le_left _ _)

/-! ## Characterization of the weight-update double loop -/

theorem rowUpdate_length (lr x : ℚ) (clipped : List ℚ) (bn : ℕ)
    (row : List ℚ) : (rowUpdate lr x clipped bn row).length = row.length :=
  jsMapIdx_length _ _ _

theorem rowUpdate_zero (lr x : ℚ) (clipped : List ℚ) (row : List ℚ) :
    rowUpdate lr x clipped 0 row = row := by
  unfold rowUpdate
  simp only [Nat.not_lt_zero, if_false]
  exact jsMapIdx_self 0 row

theorem rowUpdate_getD_ge (lr x : ℚ) (clipped : List ℚ) (bn j : ℕ)
    (h : bn ≤ j) (row : List ℚ) :
    (rowUpdate lr x clipped bn row).getD j 0 = row.getD j 0 := by
  unfold rowUpdate
  rw [jsMapIdx_getD]
  by_cases hj : j < row.length
  · simp [hj, Nat.not_lt.mpr h]
  · rw [if_neg hj, List.getD_eq_default _ _ (by simpa using Nat.le_of_not_lt hj)]

theorem rowUpdate_succ (lr x : ℚ) (clipped : List ℚ) (bn : ℕ)
    (row : List ℚ) :
    rowUpdate lr x clipped (bn + 1) row =
      (rowUpdate lr x clipped bn row).set bn
        (jsClamp (-WEIGHT_CLIP) WEIGHT_CLIP
          (row.getD bn 0 - lr * (x * clipped.getD bn 0))) := by
  refine listExtGetD _ _ 0 ?_ (fun i hi => ?_)
  · rw [rowUpdate_length, List.length_set, rowUpdate_length]
  · rw [rowUpdate_length] at hi
    by_cases hib : i = bn
    · subst hib
      rw [listGetD_set_eq _ _ (by rwa [rowUpdate_length]) _ _]
      unfold rowUpdate
      rw [jsMapIdx_getD, if_pos hi, if_pos (Nat.lt_succ_self i)]
    · rw [listGetD_set_ne _ _ _ (fun hh => hib hh.symm) _ _]
      unfold rowUpdate
      rw [jsMapIdx_getD, jsMapIdx_getD, if_pos hi, if_pos hi]
      have : i < bn + 1 ↔ i < bn :=
        ⟨fun hh => Nat.lt_of_le_of_ne (Nat.le_of_lt_succ hh) hib,
         fun hh => Nat.lt_succ_of_lt hh⟩
      by_cases hlt : i < bn
      · rw [if_pos hlt, if_pos (this.mpr hlt)]
      · rw [if_neg hlt, if_neg (fun hh => hlt (this.mp hh))]

theorem colDot_zero (row clipped : List ℚ) : colDot row clipped 0 = 0 := by
  simp [colDot]

theorem colDot_succ (row clipped : List ℚ) (bn : ℕ) :
    colDot row clipped (bn + 1) =
      colDot row clipped bn + row.getD bn 0 * clipped.getD bn 0 := by
  unfold colDot
  rw [List.range_succ, List.map_append, List.sum_append]
  simp

theorem weightLoopInner_spec (lr x : ℚ) (clipped : List ℚ) (i : ℕ) :
    ∀ (bn : ℕ) (w : List (List ℚ)) (ig : List ℚ),
    weightLoopInner lr x clipped i bn (w, ig) =
      (w.set i (rowUpdate lr x clipped bn (w.getD i [])),
       ig.set i (ig.getD i 0 + colDot (w.getD i []) clipped bn)) := by
  intro bn
  induction bn with
  | zero =>
    intro w ig
    unfold weightLoopInner
    rw [List.range_zero, List.foldl_nil, rowUpdate_zero, colDot_zero,
      add_zero, listSet_getD_self, listSet_getD_self]
  | succ bn ih =>
    intro w ig
    unfold weightLoopInner at ih ⊢
    rw [List.range_succ, List.foldl_append, ih w ig, List.foldl_cons,
      List.foldl_nil]
    simp only []
    by_cases hi : i < w.length
    · have hgetw : (w.set i (rowUpdate lr x clipped bn (w.getD i []))).getD i []
          = rowUpdate lr x clipped bn (w.getD i []) :=
        listGetD_set_eq _ _ hi _ _
      rw [hgetw, rowUpdate_getD_ge lr x clipped bn bn le_rfl, listSet_set,
        ← rowUpdate_succ, listSet_set]
      by_cases hig : i < ig.length
      · rw [listGetD_set_eq _ _ hig _ _, colDot_succ, add_assoc]
      · have hoob : ig.length ≤ i := Nat.le_of_not_lt hig
        simp [listSet_oob _ _ hoob]
    · have hoobw : w.length ≤ i := Nat.le_of_not_lt hi
      have hwnil : w.getD i [] = [] :=
        List.getD_eq_default _ _ (by simpa using hoobw)
      have hsetw : ∀ a, w.set i a = w := fun a => listSet_oob _ _ hoobw a
      have hcd : ∀ m : ℕ, colDot ([] : List ℚ) clipped m = 0 := fun m => by
        simp [colDot]
      by_cases hig : i < ig.length
      · have hS : (ig.set i
            (ig.getD i 0 + colDot (w.getD i []) clipped bn)).getD i 0
            = ig.getD i 0 + colDot (w.getD i []) clipped bn :=
          listGetD_set_eq _ _ hig _ _
        rw [hS]
        simp only [hsetw, hwnil, hcd, listSet_set, List.getD_nil, zero_mul,
          add_zero]
      · have hoob : ig.length ≤ i := Nat.le_of_not_lt hig
        have hsetig : ∀ a, ig.set i a = ig := fun a => listSet_oob _ _ hoob a
        simp [hsetw, hsetig, hwnil]

theorem updateWeightsLoop_spec (lr : ℚ) (input clipped : List ℚ) (bn : ℕ)
    (w0 : List (List ℚ)) (ig0 : List ℚ) :
    ∀ n : ℕ,
    (List.range n).foldl
        (fun st i => weightLoopInner lr (input.getD i 0) clipped i bn st)
        (w0, ig0) =
      (jsMapIdx [] (fun i row =>
        if i < n then rowUpdate lr (input.getD i 0) clipped bn row else row)
        w0,
       jsMapIdx 0 (fun i v =>
        if i < n then v + colDot (w0.getD i []) clipped bn else v) ig0) := by
  intro n
  induction n with
  | zero =>
    simp only [List.range_zero, List.foldl_nil, Nat.not_lt_zero, if_false]
    rw [jsMapIdx_self, jsMapIdx_self]
  | succ n ih =>
    rw [List.range_succ, List.foldl_append, ih, List.foldl_cons,
      List.foldl_nil, weightLoopInner_spec]
    have hw : (jsMapIdx [] (fun i row =>
        if i < n then rowUpdate lr (input.getD i 0) clipped bn row else row)
        w0).getD n [] = w0.getD n [] := by
      rw [jsMapIdx_getD]
      by_cases hn : n < w0.length
      · simp [hn]
      · rw [if_neg hn,
          List.getD_eq_default _ _ (by simpa using Nat.le_of_not_lt hn)]
    have hg : (jsMapIdx 0 (fun i v =>
        if i < n then v + colDot (w0.getD i []) clipped bn else v)
        ig0).getD n 0 = ig0.getD n 0 := by
      rw [jsMapIdx_getD]
      by_cases hn : n < ig0.length
      · simp [hn]
      · rw [if_neg hn,
          List.getD_eq_default _ _ (by simpa using Nat.le_of_not_lt hn)]
    rw [hw, hg, Prod.mk.injEq]
    have hwert : ∀ i, i < n + 1 ↔ (i < n ∨ i = n) := by
      intro i
      constructor
      · intro hh
        rcases Nat.lt_or_ge i n with hlt | hge
        · exact Or.inl hlt
        · exact Or.inr (Nat.le_antisymm (Nat.le_of_lt_succ hh) hge)
      · rintro (hh | rfl)
        · exact Nat.lt_succ_of_lt hh
        · exact Nat.lt_succ_self i
    constructor
    · refine listExtGetD _ _ [] ?_ (fun i hi => ?_)
      · rw [List.length_set, jsMapIdx_length, jsMapIdx_length]
      · rw [List.length_set, jsMapIdx_length] at hi
        by_cases hieq : i = n
        · subst hieq
          rw [listGetD_set_eq _ _ (by rwa [jsMapIdx_length]) _ _,
            jsMapIdx_getD, if_pos hi, if_pos (Nat.lt_succ_self i)]
        · rw [listGetD_set_ne _ _ _ (fun hh => hieq hh.symm) _ _,
            jsMapIdx_getD, jsMapIdx_getD, if_pos hi, if_pos hi]
          by_cases hlt : i < n
          · rw [if_pos hlt, if_pos (Nat.lt_succ_of_lt hlt)]
          · rw [if_neg hlt, if_neg (fun hh => by
              rcases (hwert i).mp hh with h1 | h2
              · exact hlt h1
              · exact hieq h2)]
    · refine listExtGetD _ _ 0 ?_ (fun i hi => ?_)
      · rw [List.length_set, jsMapIdx_length, jsMapIdx_length]
      · rw [List.length_set, jsMapIdx_length] at hi
        by_cases hieq : i = n
        · subst hieq
          rw [listGetD_set_eq _ _ (by rwa [jsMapIdx_length]) _ _,
            jsMapIdx_getD, if_pos hi, if_pos (Nat.lt_succ_self i)]
        · rw [listGetD_set_ne _ _ _ (fun hh => hieq hh.symm) _ _,
            jsMapIdx_getD, jsMapIdx_getD, if_pos hi, if_pos hi]
          by_cases hlt : i < n
          · rw [if_pos hlt, if_pos (Nat.lt_succ_of_lt hlt)]
          · rw [if_neg hlt, if_neg (fun hh => by
              rcases (hwert i).mp hh with h1 | h2
              · exact hlt h1
              · exact hieq h2)]

theorem updateWeights_eq (lr : ℚ) (input clipped : List ℚ)
    (w0 : List (List ℚ)) (bn : ℕ) :
    updateWeights lr input clipped w0 bn =
      (weightsAfterUpdate lr input clipped bn w0,
       inputGradOfWeights input clipped w0 bn) := by
  unfold updateWeights
  rw [updateWeightsLoop_spec, Prod.mk.injEq]
  constructor
  · rfl
  · unfold inputGradOfWeights
    refine listExtGetD _ _ 0 ?_ (fun i hi => ?_)
    · rw [jsMapIdx_length, jsMapIdx_length, List.length_replicate]
    · rw [jsMapIdx_length, List.length_replicate] at hi
      rw [jsMapIdx_getD, jsMapIdx_getD]
      simp only [List.length_replicate, hi, if_pos]
      rw [listGetD_replicate, if_pos hi, zero_add]

/-! ## Clamping bounds for the backward pass -/

theorem rowUpdate_mem_bounds (lr x : ℚ) (clipped : List ℚ) (bn : ℕ)
    (row : List ℚ) (hr : row.length ≤ bn) :
    ∀ v ∈ rowUpdate lr x clipped bn row,
      -WEIGHT_CLIP ≤ v ∧ v ≤ WEIGHT_CLIP := by
  intro v hv
  obtain ⟨j, hj, he⟩ := jsMapIdx_mem _ _ _ _ hv
  rw [he, if_pos (Nat.lt_of_lt_of_le hj hr)]
  refine ⟨le_jsClamp _ _ _, jsClamp_le _ _ _ (by norm_num [WEIGHT_CLIP])⟩

theorem updateBiases_mem_bounds (lr : ℚ) (biases clipped : List ℚ) :
    ∀ b ∈ updateBiases lr biases clipped,
      -WEIGHT_CLIP ≤ b ∧ b ≤ WEIGHT_CLIP := by
  intro b hb
  obtain ⟨j, hj, he⟩ := jsMapIdx_mem _ _ _ _ hb
  rw [he]
  exact ⟨le_jsClamp _ _ _, jsClamp_le _ _ _ (by norm_num [WEIGHT_CLIP])⟩

theorem weightsAfterUpdate_mem_bounds (lr : ℚ) (input clipped : List ℚ)
    (bn : ℕ) (w0 : List (List ℚ)) (hlen : w0.length ≤ input.length)
    (hr : ∀ row ∈ w0, row.length ≤ bn) :
    ∀ row ∈ weightsAfterUpdate lr input clipped bn w0, ∀ v ∈ row,
      -WEIGHT_CLIP ≤ v ∧ v ≤ WEIGHT_CLIP := by
  intro row hrow
  obtain ⟨i, hi, he⟩ := jsMapIdx_mem _ _ _ _ hrow
  have hmem : w0.getD i [] ∈ w0 := by
    rw [List.getD_eq_getElem _ _ hi]
    exact List.getElem_mem _
  rw [he, if_pos (Nat.lt_of_lt_of_le hi hlen)]
  exact rowUpdate_mem_bounds lr _ clipped bn _ (hr _ hmem)

theorem layerBackward_clamps (lr : ℚ) (g : List ℚ) (L : Layer)
    (hw : L.weights.length ≤ (L.lastInput.getD []).length)
    (hr : ∀ row ∈ L.weights, row.length ≤ L.biases.length) :
    (∀ row ∈ (layerBackward lr g L).1.weights, ∀ v ∈ row,
       -WEIGHT_CLIP ≤ v ∧ v ≤ WEIGHT_CLIP) ∧
    (∀ b ∈ (layerBackward lr g L).1.biases,
       -WEIGHT_CLIP ≤ b ∧ b ≤ WEIGHT_CLIP) := by
  unfold layerBackward
  simp only [updateWeights_eq]
  exact ⟨weightsAfterUpdate_mem_bounds lr _ _ _ _ hw hr,
         updateBiases_mem_bounds lr _ _⟩

theorem backwardLayers_clamps (lr : ℚ) :
    ∀ (ls : List Layer) (g : List ℚ),
    (∀ L ∈ ls, L.weights.length ≤ (L.lastInput.getD []).length ∧
       ∀ row ∈ L.weights, row.length ≤ L.biases.length) →
    ∀ L2 ∈ (backwardLayers lr ls g).1,
      (∀ row ∈ L2.weights, ∀ v ∈ row,
         -WEIGHT_CLIP ≤ v ∧ v ≤ WEIGHT_CLIP) ∧
      (∀ b ∈ L2.biases, -WEIGHT_CLIP ≤ b ∧ b ≤ WEIGHT_CLIP) := by
  intro ls
  induction ls with
  | nil => intro g h L2 hL2; simp [backwardLayers] at hL2
  | cons L rest ih =>
    intro g h L2 hL2
    simp only [backwardLayers, List.mem_cons] at hL2
    rcases hL2 with hL2 | hL2
    · subst hL2
      exact layerBackward_clamps lr _ L (h L (by simp)).1 (h L (by simp)).2
    · exact ih g (fun L3 hL3 => h L3 (by simp [hL3])) L2 hL2

/-! ## Forward pass: cache shapes -/

theorem layerForward_out_length (cur : List ℚ) (L : Layer) :
    ((layerForward cur L).2).length = L.biases.length := by
  simp [layerForward]

theorem forwardLayers_ready :
    ∀ (ls : List Layer) (d : ℕ) (cur : List ℚ),
    layersWF d ls → cur.length = d →
    ∀ L2 ∈ (forwardLayers ls cur).1,
      L2.weights.length ≤ (L2.lastInput.getD []).length ∧
      ∀ row ∈ L2.weights, row.length ≤ L2.biases.length := by
  intro ls
  induction ls with
  | nil => intro d cur _ _ L2 hL2; simp [forwardLayers] at hL2
  | cons L rest ih =>
    intro d cur hwf hc L2 hL2
    obtain ⟨⟨hlen, hrows⟩, hrest⟩ := hwf
    simp only [forwardLayers, List.mem_cons] at hL2
    rcases hL2 with hL2 | hL2
    · subst hL2
      constructor
      · simp only [layerForward, Option.getD_some]
        rw [hlen, hc]
      · intro row hrow
        exact le_of_eq (hrows row hrow)
    · exact ih L.biases.length _ hrest (layerForward_out_length cur L) L2 hL2

theorem any_nonfinite_false (input : List JsNum)
    (hs : ∀ x ∈ input, x.isFinite = true) :
    (input.any fun x => !x.isFinite) = false := by
  rw [List.any_eq_false]
  intro x hx
  simp [hs x hx]

theorem forward_finite_eq (net : NeuralNetwork) (state : List JsNum)
    (hs : ∀ x ∈ state, x.isFinite = true) :
    net.forward state =
      ({ net with layers := (forwardLayers net.layers
          (state.map JsNum.toQ)).1 },
       (forwardLayers net.layers (state.map JsNum.toQ)).2) := by
  unfold NeuralNetwork.forward
  rw [any_nonfinite_false state hs]
  simp

/-- C1: for every `trainStep` call with a finite target (on a well-formed
network, a finite state of matching dimension, and an in-range action),
after the call every weight and every bias of every layer lies in
`[-WEIGHT_CLIP, WEIGHT_CLIP] = [-10, 10]`; in particular an arbitrarily
large target value cannot move any single weight or bias outside this
bound in one step. -/
theorem trainStep_weights_biases_clamped (net : NeuralNetwork)
    (state : List JsNum) (action : ℕ) (target : JsNum)
    (ht : target.isFinite = true)
    (hs : ∀ x ∈ state, x.isFinite = true)
    (hwf : net.wf state.length)
    (ha : action < net.outputDim) :
    ∀ L ∈ (net.trainStep state action target).1.layers,
      (∀ row ∈ L.weights, ∀ v ∈ row, -WEIGHT_CLIP ≤ v ∧ v ≤ WEIGHT_CLIP) ∧
      (∀ b ∈ L.biases, -WEIGHT_CLIP ≤ b ∧ b ≤ WEIGHT_CLIP) := by
  intro L hL
  unfold NeuralNetwork.trainStep at hL
  rw [ht] at hL
  simp only [Bool.not_true, Bool.false_eq_true, if_false, ite_false] at hL
  rw [forward_finite_eq net state hs] at hL
  simp only [] at hL
  exact backwardLayers_clamps _ _ _
    (forwardLayers_ready net.layers state.length _ hwf (by simp)) L hL

/-- C2: in the per-layer backward step of `trainStep` (the step
`backwardLayers` applies to each layer, last to first), the gradient
propagated to the previous layer is computed from the layer's weight matrix
as it was before this call updated it — a snapshot of each weight read
before that weight's own update — while the layer's weights are
simultaneously replaced by their updated values; and `backwardLayers` passes
exactly this gradient on to the preceding layers. -/
theorem layerBackward_inputGrad_preUpdate (lr : ℚ) (g : List ℚ) (L : Layer) :
    (layerBackward lr g L).2 =
      clipGrad (inputGradOfWeights (L.lastInput.getD [])
        (clipGrad (reluGate L.activation (L.lastPreActivation.getD []) g))
        L.weights L.biases.length) ∧
    (layerBackward lr g L).1.weights =
      weightsAfterUpdate lr (L.lastInput.getD [])
        (clipGrad (reluGate L.activation (L.lastPreActivation.getD []) g))
        L.biases.length L.weights ∧
    (∀ rest : List Layer,
      backwardLayers lr (L :: rest) g =
        ((layerBackward lr (backwardLayers lr rest g).2 L).1 ::
            (backwardLayers lr rest g).1,
         (layerBackward lr (backwardLayers lr rest g).2 L).2)) := by
  refine ⟨?_, ?_, fun rest => rfl⟩
  all_goals
    unfold layerBackward
    simp only [updateWeights_eq]

/-- C9: for every input vector containing a non-finite entry, `forward`
returns an all-zero vector of the network's output dimension and leaves the
entire network state (weights, biases, caches) unchanged. -/
theorem forward_nonfinite_zero (net : NeuralNetwork) (input : List JsNum)
    (h : ∃ x ∈ input, x.isFinite = false) (hne : net.layers ≠ []) :
    net.forward input = (net, List.replicate net.outputDim 0) := by
  obtain ⟨x, hx, hxf⟩ := h
  have hany : (input.any fun x => !x.isFinite) = true :=
    List.any_eq_true.mpr ⟨x, hx, by simp [hxf]⟩
  unfold NeuralNetwork.forward
  rw [hany]
  simp

/-- C10: for every `trainStep` call with a non-finite target, the call
returns loss 0 and performs no mutation at all: no forward pass is run and
the network (weights, biases, and caches) is returned exactly as it was. -/
theorem trainStep_nonfinite_target_noop (net : NeuralNetwork)
    (state : List JsNum) (action : ℕ) (target : JsNum)
    (h : target.isFinite = false) :
    net.trainStep state action target = (net, 0) := by
  unfold NeuralNetwork.trainStep
  rw [h]
  simp

theorem listRange_one : List.range 1 = [0] := by decide

theorem seedOutputGrad_getD_action (n action : ℕ) (g : ℚ) (h : action < n) :
    (seedOutputGrad n action g).getD action 0 = g := by
  unfold seedOutputGrad
  exact listGetD_set_eq _ _ (by simpa using h) _ _

theorem seedOutputGrad_getD_other (n action a2 : ℕ) (g : ℚ)
    (h : a2 ≠ action) : (seedOutputGrad n action g).getD a2 0 = 0 := by
  unfold seedOutputGrad
  rw [listGetD_set_ne _ _ _ (fun hh => h hh.symm) _ _, listGetD_replicate]
  by_cases h2 : a2 < n <;> simp [h2]

/-- C7: for every `trainStep` call with a finite target and an in-range
action, the returned loss is the Huber value `0.5·e²` when `|e| < 1` and
`|e| − 0.5` otherwise, where `e = target − predicted` and `predicted` is the
forward Q-value of the taken action; the gradient seeded at the output for
the taken action is `−e` when `|e| < 1` and `−sign(e)` otherwise; and the
output-gradient entry of every other action is exactly zero. -/
theorem trainStep_huber_formulas (net : NeuralNetwork) (state : List JsNum)
    (action : ℕ) (target : JsNum)
    (ht : target.isFinite = true)
    (ha : action < (net.forward state).2.length) :
    ((net.trainStep state action target).2 =
      (if |target.toQ - (net.forward state).2.getD action 0| < 1 then
        1/2 * (target.toQ - (net.forward state).2.getD action 0) *
          (target.toQ - (net.forward state).2.getD action 0)
      else |target.toQ - (net.forward state).2.getD action 0| - 1/2)) ∧
    ((seedOutputGrad (net.forward state).2.length action
        (huberGrad (target.toQ - (net.forward state).2.getD action 0))).getD
          action 0 =
      (if |target.toQ - (net.forward state).2.getD action 0| < 1 then
        -(target.toQ - (net.forward state).2.getD action 0)
      else -(jsSign (target.toQ - (net.forward state).2.getD action 0)))) ∧
    (∀ a2, a2 ≠ action →
      (seedOutputGrad (net.forward state).2.length action
        (huberGrad (target.toQ - (net.forward state).2.getD action 0))).getD
          a2 0 = 0) := by
  refine ⟨?_, ?_, ?_⟩
  · unfold NeuralNetwork.trainStep
    rw [ht]
    simp only [Bool.not_true, Bool.false_eq_true, if_false]
    rfl
  · rw [seedOutputGrad_getD_action _ _ _ ha]
    rfl
  · intro a2 h2
    exact seedOutputGrad_getD_other _ _ _ _ h2

theorem clipGrad_length (g : List ℚ) : (clipGrad g).length = g.length := by
  simp [clipGrad]

theorem clipGrad_getD (g : List ℚ) (j : ℕ) (h : j < g.length) :
    (clipGrad g).getD j 0 = jsClamp (-GRAD_CLIP) GRAD_CLIP (g.getD j 0) := by
  unfold clipGrad
  rw [List.getD_eq_getElem _ _ (by simpa using h), List.getElem_map,
    List.getD_eq_getElem _ _ h]

theorem jsClamp_eq_self (lo hi x : ℚ) (h1 : lo ≤ x) (h2 : x ≤ hi) :
    jsClamp lo hi x = x := by
  unfold jsClamp
  rw [min_eq_right h2, max_eq_right h1]

theorem clipGrad_reluGate_dead (preAct g : List ℚ) (j : ℕ)
    (hdead : preAct.getD j 0 ≤ 0) :
    (clipGrad (reluGate Activation.relu preAct g)).getD j 0 = 0 := by
  by_cases hj : j < g.length
  · rw [clipGrad_getD _ _ (by rw [reluGate, jsMapIdx_length]; exact hj)]
    unfold reluGate
    rw [jsMapIdx_getD, if_pos hj]
    show jsClamp (-GRAD_CLIP) GRAD_CLIP
      (if 0 < preAct.getD j 0 then g.getD j 0 else 0) = 0
    rw [if_neg (not_lt.mpr hdead)]
    norm_num [jsClamp, GRAD_CLIP]
  · rw [List.getD_eq_default]
    rw [clipGrad_length, reluGate, jsMapIdx_length]
    simpa using Nat.le_of_not_lt hj

theorem weightsAfterUpdate_dead_col (lr : ℚ) (input clipped : List ℚ)
    (bn j : ℕ) (w0 : List (List ℚ))
    (hc : clipped.getD j 0 = 0)
    (hbound : ∀ row ∈ w0,
      -WEIGHT_CLIP ≤ row.getD j 0 ∧ row.getD j 0 ≤ WEIGHT_CLIP) :
    ∀ i, ((weightsAfterUpdate lr input clipped bn w0).getD i []).getD j 0 =
      (w0.getD i []).getD j 0 := by
  intro i
  unfold weightsAfterUpdate
  rw [jsMapIdx_getD]
  by_cases hi : i < w0.length
  · rw [if_pos hi]
    by_cases hin : i < input.length
    · rw [if_pos hin]
      have hmem : w0.getD i [] ∈ w0 := by
        rw [List.getD_eq_getElem _ _ hi]
        exact List.getElem_mem _
      by_cases hj : j < (w0.getD i []).length
      · unfold rowUpdate
        rw [jsMapIdx_getD, if_pos hj]
        by_cases hjb : j < bn
        · rw [if_pos hjb, hc]
          rw [mul_zero, mul_zero, sub_zero]
          exact jsClamp_eq_self _ _ _ (hbound _ hmem).1 (hbound _ hmem).2
        · rw [if_neg hjb]
      · rw [List.getD_eq_default _ _ (by
            rw [rowUpdate_length]
            simpa using Nat.le_of_not_lt hj),
          List.getD_eq_default _ _ (by simpa using Nat.le_of_not_lt hj)]
    · rw [if_neg hin]
  · rw [if_neg hi]
    have hnil : w0.getD i [] = ([] : List ℚ) :=
      List.getD_eq_default _ _ (by simpa using Nat.le_of_not_lt hi)
    rw [hnil]

theorem backwardLayers_dead_col (lr : ℚ) :
    ∀ (ls : List Layer) (g : List ℚ) (l j : ℕ),
    (ls.getD l default).activation = Activation.relu →
    ((ls.getD l default).lastPreActivation.getD []).getD j 0 ≤ 0 →
    (∀ row ∈ (ls.getD l default).weights,
      -WEIGHT_CLIP ≤ row.getD j 0 ∧ row.getD j 0 ≤ WEIGHT_CLIP) →
    ∀ i, (((backwardLayers lr ls g).1.getD l default).weights.getD i
        []).getD j 0 =
      ((ls.getD l default).weights.getD i []).getD j 0 := by
  intro ls
  induction ls with
  | nil => intro g l j _ _ _ i; rfl
  | cons L rest ih =>
    intro g l j hrelu hdead hbound i
    cases l with
    | zero =>
      simp only [List.getD_cons_zero] at hrelu hdead hbound ⊢
      show (((layerBackward lr (backwardLayers lr rest g).2 L).1).weights.getD
          i []).getD j 0 = (L.weights.getD i []).getD j 0
      unfold layerBackward
      simp only [updateWeights_eq]
      rw [hrelu]
      exact weightsAfterUpdate_dead_col lr _ _ _ j L.weights
        (clipGrad_reluGate_dead _ _ j hdead) hbound i
    | succ l2 =>
      simp only [List.getD_cons_succ] at hrelu hdead hbound ⊢
      show (((backwardLayers lr rest g).1.getD l2 default).weights.getD
          i []).getD j 0 = ((rest.getD l2 default).weights.getD i []).getD j 0
      exact ih g l2 j hrelu hdead hbound i

theorem forwardLayers_getD_weights :
    ∀ (ls : List Layer) (cur : List ℚ) (l : ℕ),
    ((forwardLayers ls cur).1.getD l default).weights =
      (ls.getD l default).weights := by
  intro ls
  induction ls with
  | nil => intro cur l; rfl
  | cons L rest ih =>
    intro cur l
    cases l with
    | zero => rfl
    | succ l2 =>
      show ((forwardLayers rest (layerForward cur L).2).1.getD l2
          default).weights = (rest.getD l2 default).weights
      exact ih _ l2

theorem forward_getD_weights (net : NeuralNetwork) (input : List JsNum)
    (l : ℕ) :
    (((net.forward input).1.layers.getD l default)).weights =
      ((net.layers.getD l default)).weights := by
  unfold NeuralNetwork.forward
  split
  · rfl
  · exact forwardLayers_getD_weights net.layers _ l

/-- C8 (amended): for every `trainStep` call with a finite target in which a
hidden ReLU unit's pre-activation recorded by the forward pass is `≤ 0`,
each incoming weight of that unit that already lies inside the clamp
interval `[-10, 10]` is unchanged by the call (the zero ReLU gradient leaves
only the final clamp, which is the identity there). -/
theorem relu_dead_unit_weights_unchanged (net : NeuralNetwork)
    (state : List JsNum) (action : ℕ) (target : JsNum) (l j : ℕ)
    (ht : target.isFinite = true)
    (hrelu : ((net.forward state).1.layers.getD l default).activation =
      Activation.relu)
    (hdead : (((net.forward state).1.layers.getD l
        default).lastPreActivation.getD []).getD j 0 ≤ 0)
    (hbound : ∀ row ∈ ((net.forward state).1.layers.getD l default).weights,
      -WEIGHT_CLIP ≤ row.getD j 0 ∧ row.getD j 0 ≤ WEIGHT_CLIP) :
    ∀ i, (((net.trainStep state action target).1.layers.getD l
        default).weights.getD i []).getD j 0 =
      ((net.layers.getD l default).weights.getD i []).getD j 0 := by
  intro i
  unfold NeuralNetwork.trainStep
  rw [ht]
  simp only [Bool.not_true, Bool.false_eq_true, if_false]
  show (((backwardLayers (net.forward state).1.learningRate
      (net.forward state).1.layers _).1.getD l default).weights.getD i
        []).getD j 0 = _
  rw [backwardLayers_dead_col _ _ _ l j hrelu hdead hbound i,
    ← forward_getD_weights net state l]

/-- C8 counterexample: the claim as stated ("incoming weights of a dead
ReLU unit are unchanged") fails on the code when such a weight starts
outside the clamp interval: on `deadNetBig` with state `[-1]` the hidden
unit's recorded pre-activation is `-20 ≤ 0`, yet `trainStep` changes its
incoming weight from `20` to `10` (the clamp). -/
theorem relu_dead_unit_counterexample :
    ((((deadNetBig.forward [JsNum.fin (-1)]).1.layers.getD 0
        default).lastPreActivation.getD []).getD 0 0 ≤ 0) ∧
    ((deadNetBig.forward [JsNum.fin (-1)]).1.layers.getD 0
        default).activation = Activation.relu ∧
    (((deadNetBig.trainStep [JsNum.fin (-1)] 0 (JsNum.fin 0)).1.layers.getD 0
        default).weights.getD 0 []).getD 0 0 = 10 ∧
    ((deadNetBig.layers.getD 0 default).weights.getD 0 []).getD 0 0 = 20 := by
  have hfwd : deadNetBig.forward [JsNum.fin (-1)] =
    (NeuralNetwork.mk
      [Layer.mk [[20]] [0] Activation.relu (some [-1]) (some [0])
        (some [-20]),
       Layer.mk [[1]] [0] Activation.linear (some [0]) (some [0]) (some [0])]
      (1/100), [0]) := by
    norm_num [deadNetBig, NeuralNetwork.forward, forwardLayers, layerForward,
      preActivationAt, JsNum.isFinite, JsNum.toQ, jsClamp, max_def, min_def,
      listRange_one]
  refine ⟨?_, ?_, ?_, by norm_num [deadNetBig]⟩
  · rw [hfwd]
    norm_num
  · rw [hfwd]
    rfl
  · unfold NeuralNetwork.trainStep
    rw [hfwd]
    norm_num [JsNum.isFinite, JsNum.toQ, huberGrad, huberLoss, jsSign,
      seedOutputGrad, backwardLayers, layerBackward, clipGrad, reluGate,
      updateBiases, updateWeights, weightLoopInner, jsMapIdx, jsClamp,
      max_def, min_def, GRAD_CLIP, WEIGHT_CLIP, listRange_one]

/-- C4: under auto-decay, with the floor `epsilonEnd` not above the
decay-start epsilon and a positive decay horizon, the epsilon recomputed by
`updateEpsilon()` is non-increasing as the training-step counter grows, and
equals exactly the floor once the steps since the decay origin reach
`epsilonDecaySteps`. -/
theorem epsilonDecay_monotone_floor (e0 eEnd : ℚ) (D dss : ℕ)
    (hend : eEnd ≤ e0) (hD : 0 < D) :
    (∀ s1 s2 : ℕ, s1 ≤ s2 →
      updateEpsilonVal e0 eEnd D s2 dss ≤ updateEpsilonVal e0 eEnd D s1 dss) ∧
    (∀ s : ℕ, dss + D ≤ s → updateEpsilonVal e0 eEnd D s dss = eEnd) := by
  have hDq : (0 : ℚ) < (D : ℚ) := by exact_mod_cast hD
  constructor
  · intro s1 s2 h12
    unfold updateEpsilonVal
    have hsub : ((s1 : ℚ) - dss) ≤ ((s2 : ℚ) - dss) := by
      have h1 : (s1 : ℚ) ≤ s2 := by exact_mod_cast h12
      linarith
    have hdiv : ((s1 : ℚ) - dss) / D ≤ ((s2 : ℚ) - dss) / D := by
      gcongr
    have hmin : min 1 (((s1 : ℚ) - dss) / D) ≤ min 1 (((s2 : ℚ) - dss) / D) :=
      min_le_min le_rfl hdiv
    have hmul := mul_le_mul_of_nonpos_right hmin (sub_nonpos.mpr hend)
    linarith
  · intro s hs
    unfold updateEpsilonVal
    have hge : (1 : ℚ) ≤ ((s : ℚ) - dss) / D := by
      rw [one_le_div hDq]
      have h1 : (dss : ℚ) + D ≤ s := by exact_mod_cast hs
      linarith
    rw [min_eq_left hge]
    ring

theorem gpuTrainOnBatch_counters (batch : ℕ) (s : GpuState) :
    (gpuTrainOnBatch batch s).debt = s.debt ∧
    (gpuTrainOnBatch batch s).envSteps = s.envSteps ∧
    (gpuTrainOnBatch batch s).trainCallCount ≤ s.trainCallCount + 1 := by
  unfold gpuTrainOnBatch
  split
  · exact ⟨rfl, rfl, Nat.le_succ _⟩
  · dsimp only
    split
    · exact ⟨rfl, rfl, le_rfl⟩
    · exact ⟨rfl, rfl, le_rfl⟩

theorem gpuDrain_inv (batch : ℕ) :
    ∀ (fuel : ℕ) (breaks : List Bool) (s : GpuState),
    gpuInv s → gpuInv (gpuDrain batch fuel breaks s) := by
  intro fuel
  induction fuel with
  | zero => intro breaks s h; exact h
  | succ f ih =>
    intro breaks s h
    unfold gpuDrain
    split
    case isTrue hcond =>
      obtain ⟨hc1, hc2, hc3⟩ := gpuTrainOnBatch_counters batch s
      have h2 : gpuInv { gpuTrainOnBatch batch s with
          debt := (gpuTrainOnBatch batch s).debt - targetTrainRatio } := by
        unfold gpuInv at h ⊢
        dsimp only
        rw [hc1, hc2]
        simp only [targetTrainRatio] at h hcond hc3 ⊢
        omega
      dsimp only
      cases breaks with
      | nil => exact ih [] _ h2
      | cons b rest =>
        cases b
        · simp only [Bool.false_eq_true, if_false]
          exact ih rest _ h2
        · simp only [if_true]
          exact h2
    case isFalse => exact h

theorem gpuTick_inv (batch cap n : ℕ) (breaks : List Bool) (s : GpuState)
    (h : gpuInv s) : gpuInv (gpuTick batch cap n breaks s) := by
  unfold gpuTick
  dsimp only
  split
  · apply gpuDrain_inv
    unfold gpuInv at h ⊢
    dsimp only
    omega
  · unfold gpuInv at h ⊢
    dsimp only
    omega

theorem gpuRun_inv (batch cap : ℕ) :
    ∀ (ticks : List (ℕ × List Bool)) (s : GpuState),
    gpuInv s → gpuInv (gpuRun batch cap ticks s) := by
  intro ticks
  induction ticks with
  | nil => intro s h; exact h
  | cons t rest ih =>
    intro s h
    exact ih _ (gpuTick_inv batch cap t.1 t.2 s h)

/-- C5: in the GPU fast-mode loop, learning updates are throttled by the
experience-debt counter (incremented by the transitions appended per tick,
decremented by `targetTrainRatio = 8` per update, with updates gated on the
debt): starting from `startFastMode`'s zeroed counters, for every schedule
(any per-tick environment count, any wall-clock break pattern) and at every
tick boundary, `8 ·` (training updates) never exceeds the environment-step
count. -/
theorem fastMode_train_ratio_bound (batch cap : ℕ)
    (ticks : List (ℕ × List Bool)) :
    targetTrainRatio * (gpuRun batch cap ticks gpuStart).trainCallCount ≤
      (gpuRun batch cap ticks gpuStart).envSteps := by
  have h := gpuRun_inv batch cap ticks gpuStart (by simp [gpuInv, gpuStart])
  unfold gpuInv at h
  omega

theorem gpuTrainOnBatch_syncInv (batch : ℕ) (s : GpuState)
    (h : gpuSyncInv s) : gpuSyncInv (gpuTrainOnBatch batch s) := by
  obtain ⟨h1, h2, h3⟩ := h
  unfold gpuTrainOnBatch
  split
  · exact ⟨h1, h2, h3⟩
  · dsimp only
    split
    case isTrue hge =>
      refine ⟨le_rfl, rfl, ?_⟩
      cases hsy : s.syncs with
      | nil => simp
      | cons a rest =>
        rw [List.chain'_cons]
        constructor
        · rw [hsy] at h2
          simp only [List.headD_cons] at h2
          rw [← h2]
          omega
        · rw [hsy] at h3
          exact h3
    case isFalse => exact ⟨h1, h2, h3⟩

theorem gpuDrain_syncInv (batch : ℕ) :
    ∀ (fuel : ℕ) (breaks : List Bool) (s : GpuState),
    gpuSyncInv s → gpuSyncInv (gpuDrain batch fuel breaks s) := by
  intro fuel
  induction fuel with
  | zero => intro breaks s h; exact h
  | succ f ih =>
    intro breaks s h
    unfold gpuDrain
    split
    case isTrue hcond =>
      have h2 : gpuSyncInv { gpuTrainOnBatch batch s with
          debt := (gpuTrainOnBatch batch s).debt - targetTrainRatio } := by
        obtain ⟨h1, h2, h3⟩ := gpuTrainOnBatch_syncInv batch s h
        exact ⟨h1, h2, h3⟩
      dsimp only
      cases breaks with
      | nil => exact ih [] _ h2
      | cons b rest =>
        cases b
        · simp only [Bool.false_eq_true, if_false]
          exact ih rest _ h2
        · simp only [if_true]
          exact h2
    case isFalse => exact h

theorem gpuTick_syncInv (batch cap n : ℕ) (breaks : List Bool) (s : GpuState)
    (h : gpuSyncInv s) : gpuSyncInv (gpuTick batch cap n breaks s) := by
  obtain ⟨h1, h2, h3⟩ := h
  unfold gpuTick
  dsimp only
  split
  · apply gpuDrain_syncInv
    exact ⟨Nat.le_add_right_of_le h1, h2, h3⟩
  · exact ⟨Nat.le_add_right_of_le h1, h2, h3⟩

theorem gpuRun_syncInv (batch cap : ℕ) :
    ∀ (ticks : List (ℕ × List Bool)) (s : GpuState),
    gpuSyncInv s → gpuSyncInv (gpuRun batch cap ticks s) := by
  intro ticks
  induction ticks with
  | nil => intro s h; exact h
  | cons t rest ih =>
    intro s h
    exact ih _ (gpuTick_syncInv batch cap t.1 t.2 s h)

/-- C6 (amended): in the GPU fast-mode loop, the target-network copy is
gated only on environment steps elapsed since the previous copy — never on
the training-step counter — so along any run from `startFastMode` every two
consecutive syncs are at least `TARGET_UPDATE_ENV_STEPS = 10000` environment
steps apart, for every number of parallel environments and every schedule;
but the exact env-step counts between syncs are not identical across runs
that differ only in the environment count (see the counterexample). -/
theorem target_sync_min_gap (batch cap : ℕ)
    (ticks : List (ℕ × List Bool)) :
    List.Chain' (fun a b => b + TARGET_UPDATE_ENV_STEPS ≤ a)
      (gpuRun batch cap ticks gpuStart).syncs :=
  (gpuRun_syncInv batch cap ticks gpuStart
    ⟨le_rfl, rfl, List.chain'_nil⟩).2.2

set_option maxRecDepth 10000 in
/-- C6 counterexample: two fast-mode runs differing only in the number of
parallel environments do not have identical environment-step counts between
consecutive target syncs.  With 10000 environments the gaps after 8 loop
iterations are `[10000, 10000, 10000]`; with 9999 environments the single
completed gap is `19998` — the sync points are aligned to the per-tick step
granularity, so they differ across environment counts. -/
theorem target_sync_envsteps_counterexample :
    syncGaps (gpuRun (getOptimalBatchSize 10000) 50000
      (List.replicate 8 (10000, [])) gpuStart) = [10000, 10000, 10000] ∧
    syncGaps (gpuRun (getOptimalBatchSize 9999) 50000
      (List.replicate 8 (9999, [])) gpuStart) = [19998] ∧
    ([10000, 10000, 10000] : List ℕ) ≠ [19998] := by
  decide

theorem ringAdd_length_ge (cap : ℕ) (buf : List Transition) (t : Transition) :
    buf.length ≤ (ringAdd cap buf t).length := by
  unfold ringAdd
  split
  · simp
  · cases buf <;> simp

theorem trainOnBatch_preserves (o : List ℕ) (s : WorkerState) :
    (trainOnBatch o s).replayBuffer = s.replayBuffer ∧
    (trainOnBatch o s).config = s.config ∧
    (trainOnBatch o s).experienceCount = s.experienceCount ∧
    (trainOnBatch o s).trainEntries = s.trainEntries := by
  unfold trainOnBatch
  split
  · exact ⟨rfl, rfl, rfl, rfl⟩
  · dsimp only
    split
    · exact ⟨rfl, rfl, rfl, rfl⟩
    · exact ⟨rfl, rfl, rfl, rfl⟩

theorem updateEpsilonW_preserves (s : WorkerState) :
    (updateEpsilonW s).replayBuffer = s.replayBuffer ∧
    (updateEpsilonW s).config = s.config ∧
    (updateEpsilonW s).experienceCount = s.experienceCount ∧
    (updateEpsilonW s).trainEntries = s.trainEntries := by
  unfold updateEpsilonW
  split
  · exact ⟨rfl, rfl, rfl, rfl⟩
  · exact ⟨rfl, rfl, rfl, rfl⟩

theorem handleExperience_buffer (o : List ℕ) (s : WorkerState)
    (t : Transition) :
    (handleExperience o s t).replayBuffer =
      ringAdd s.config.bufferSize s.replayBuffer t ∧
    (handleExperience o s t).config = s.config := by
  unfold handleExperience
  dsimp only
  split
  · obtain ⟨he1, he2, _, _⟩ := updateEpsilonW_preserves
      (trainOnBatch o { s with
        replayBuffer := ringAdd s.config.bufferSize s.replayBuffer t,
        experienceCount := s.experienceCount + 1,
        trainEntries := s.trainEntries + 1 })
    obtain ⟨ht1, ht2, _, _⟩ := trainOnBatch_preserves o { s with
        replayBuffer := ringAdd s.config.bufferSize s.replayBuffer t,
        experienceCount := s.experienceCount + 1,
        trainEntries := s.trainEntries + 1 }
    rw [he1, he2, ht1, ht2]
    exact ⟨rfl, rfl⟩
  · exact ⟨rfl, rfl⟩

theorem foldExperience_mono :
    ∀ (msgs : List (Transition × List ℕ)) (s : WorkerState),
    s.replayBuffer.length ≤
      (msgs.foldl (fun s m => handleExperience m.2 s m.1)
        s).replayBuffer.length := by
  intro msgs
  induction msgs with
  | nil => intro s; exact le_rfl
  | cons m rest ih =>
    intro s
    rw [List.foldl_cons]
    refine le_trans ?_ (ih (handleExperience m.2 s m.1))
    rw [(handleExperience_buffer m.2 s m.1).1]
    exact ringAdd_length_ge _ _ _

theorem handleExperience_warmup (o : List ℕ) (s : WorkerState)
    (t : Transition)
    (h : (ringAdd s.config.bufferSize s.replayBuffer t).length <
      WARMUP_SIZE) :
    handleExperience o s t =
      { s with replayBuffer := ringAdd s.config.bufferSize s.replayBuffer t,
               experienceCount := s.experienceCount + 1 } := by
  have hw : isInWarmup { s with
      replayBuffer := ringAdd s.config.bufferSize s.replayBuffer t,
      experienceCount := s.experienceCount + 1 } = true := by
    unfold isInWarmup
    simpa using h
  unfold handleExperience
  dsimp only
  rw [hw]
  simp

theorem handleFold_warmup :
    ∀ (msgs : List (Transition × List ℕ)) (s : WorkerState),
    WARMUP_SIZE ≤ s.config.bufferSize →
    (msgs.foldl (fun s m => handleExperience m.2 s m.1)
      s).replayBuffer.length < WARMUP_SIZE →
    msgs.foldl (fun s m => handleExperience m.2 s m.1) s =
      { s with replayBuffer := s.replayBuffer ++ msgs.map (fun m => m.1),
               experienceCount := s.experienceCount + msgs.length } := by
  intro msgs
  induction msgs with
  | nil =>
    intro s _ _
    simp
  | cons m rest ih =>
    intro s hcap hfin
    rw [List.foldl_cons] at hfin ⊢
    have hmono := foldExperience_mono rest (handleExperience m.2 s m.1)
    have hs1buf := (handleExperience_buffer m.2 s m.1).1
    have hs1cfg := (handleExperience_buffer m.2 s m.1).2
    have hs1len : (handleExperience m.2 s m.1).replayBuffer.length <
        WARMUP_SIZE := lt_of_le_of_lt hmono hfin
    rw [hs1buf] at hs1len
    have hslen : s.replayBuffer.length < s.config.bufferSize := by
      by_contra hge
      unfold ringAdd at hs1len
      rw [if_neg hge] at hs1len
      cases hb : s.replayBuffer with
      | nil =>
        rw [hb] at hge
        simp at hge
        omega
      | cons x xs =>
        rw [hb] at hs1len hge
        simp at hs1len hge
        unfold WARMUP_SIZE at hs1len hcap
        omega
    have happ : ringAdd s.config.bufferSize s.replayBuffer m.1 =
        s.replayBuffer ++ [m.1] := by
      unfold ringAdd
      rw [if_pos hslen]
    have hstep := handleExperience_warmup m.2 s m.1 (by rwa [happ] at hs1len ⊢)
    rw [hstep] at hfin ⊢
    rw [ih _ (by simpa using hcap) hfin]
    rw [happ]
    simp [List.append_assoc]
    omega

/-- C3: in the CPU training worker, while the replay buffer holds fewer
transitions than the warmup threshold (and the configured capacity is at
least the threshold), any number of `experience` submissions performs zero
gradient updates: `trainOnBatch` is never entered (ghost counter stays 0),
the training-step counter stays 0, the reported loss stays 0, and the
transitions only accumulate in the buffer in order. -/
theorem warmupGate_no_training (cfg : DQNConfig) (pn tn : NeuralNetwork)
    (msgs : List (Transition × List ℕ))
    (hcap : WARMUP_SIZE ≤ cfg.bufferSize)
    (hsz : (runExperiences cfg pn tn msgs).replayBuffer.length <
      WARMUP_SIZE) :
    (runExperiences cfg pn tn msgs).steps = 0 ∧
    (runExperiences cfg pn tn msgs).lastLoss = 0 ∧
    (runExperiences cfg pn tn msgs).trainEntries = 0 ∧
    (runExperiences cfg pn tn msgs).replayBuffer =
      msgs.map (fun m => m.1) := by
  unfold runExperiences at hsz ⊢
  rw [handleFold_warmup msgs _ hcap hsz]
  exact ⟨rfl, rfl, rfl, by simp [initWorkerState]⟩

/-- Witness for C3 at a concrete configuration and a single submission. -/
theorem warmupGate_no_training_witness :
    WARMUP_SIZE ≤ wCfg.bufferSize ∧
    (runExperiences wCfg smallNet smallNet
      [(default, [])]).replayBuffer.length < WARMUP_SIZE ∧
    ((runExperiences wCfg smallNet smallNet [(default, [])]).steps = 0 ∧
     (runExperiences wCfg smallNet smallNet [(default, [])]).lastLoss = 0 ∧
     (runExperiences wCfg smallNet smallNet [(default, [])]).trainEntries =
       0 ∧
     (runExperiences wCfg smallNet smallNet [(default, [])]).replayBuffer =
       [default]) :=
  ⟨by decide, by decide,
   warmupGate_no_training wCfg smallNet smallNet [(default, [])]
     (by decide) (by decide)⟩

/-- Witness for C4 at concrete decay parameters. -/
theorem epsilonDecay_monotone_floor_witness :
    ((1 : ℚ)/20 ≤ 1 ∧ (0 : ℕ) < 10) ∧
    updateEpsilonVal 1 (1/20) 10 12 0 = 1/20 :=
  ⟨⟨by norm_num, by norm_num⟩,
   (epsilonDecay_monotone_floor 1 (1/20) 10 0 (by norm_num)
     (by norm_num)).2 12 (by norm_num)⟩

/-- Witness for C1 at a concrete network and a huge target. -/
theorem trainStep_weights_biases_clamped_witness :
    (JsNum.fin 1000000000).isFinite = true ∧
    (∀ x ∈ [JsNum.fin 1], x.isFinite = true) ∧
    smallNet.wf ([JsNum.fin 1] : List JsNum).length ∧
    0 < smallNet.outputDim ∧
    (∀ L ∈ (smallNet.trainStep [JsNum.fin 1] 0
        (JsNum.fin 1000000000)).1.layers,
      (∀ row ∈ L.weights, ∀ v ∈ row, -WEIGHT_CLIP ≤ v ∧ v ≤ WEIGHT_CLIP) ∧
      (∀ b ∈ L.biases, -WEIGHT_CLIP ≤ b ∧ b ≤ WEIGHT_CLIP)) :=
  ⟨rfl, by decide, by decide, by decide,
   trainStep_weights_biases_clamped smallNet [JsNum.fin 1] 0
     (JsNum.fin 1000000000) rfl (by decide) (by decide) (by decide)⟩

/-- Witness for C7 at a concrete network. -/
theorem trainStep_huber_formulas_witness :
    (JsNum.fin 7).isFinite = true ∧
    0 < (smallNet.forward [JsNum.fin 1]).2.length ∧
    (((smallNet.trainStep [JsNum.fin 1] 0 (JsNum.fin 7)).2 =
      (if |(JsNum.fin 7).toQ -
          (smallNet.forward [JsNum.fin 1]).2.getD 0 0| < 1 then
        1/2 * ((JsNum.fin 7).toQ -
            (smallNet.forward [JsNum.fin 1]).2.getD 0 0) *
          ((JsNum.fin 7).toQ - (smallNet.forward [JsNum.fin 1]).2.getD 0 0)
      else |(JsNum.fin 7).toQ -
          (smallNet.forward [JsNum.fin 1]).2.getD 0 0| - 1/2)) ∧
    ((seedOutputGrad (smallNet.forward [JsNum.fin 1]).2.length 0
        (huberGrad ((JsNum.fin 7).toQ -
          (smallNet.forward [JsNum.fin 1]).2.getD 0 0))).getD 0 0 =
      (if |(JsNum.fin 7).toQ -
          (smallNet.forward [JsNum.fin 1]).2.getD 0 0| < 1 then
        -((JsNum.fin 7).toQ - (smallNet.forward [JsNum.fin 1]).2.getD 0 0)
      else -(jsSign ((JsNum.fin 7).toQ -
        (smallNet.forward [JsNum.fin 1]).2.getD 0 0)))) ∧
    (∀ a2, a2 ≠ 0 →
      (seedOutputGrad (smallNet.forward [JsNum.fin 1]).2.length 0
        (huberGrad ((JsNum.fin 7).toQ -
          (smallNet.forward [JsNum.fin 1]).2.getD 0 0))).getD a2 0 = 0)) :=
  ⟨rfl, by decide,
   trainStep_huber_formulas smallNet [JsNum.fin 1] 0 (JsNum.fin 7) rfl
     (by decide)⟩

/-- Witness for C9 at a concrete network and a NaN entry. -/
theorem forward_nonfinite_zero_witness :
    (∃ x ∈ [JsNum.nan], x.isFinite = false) ∧
    smallNet.layers ≠ [] ∧
    smallNet.forward [JsNum.nan] =
      (smallNet, List.replicate smallNet.outputDim 0) :=
  ⟨⟨JsNum.nan, by decide, rfl⟩, by decide,
   forward_nonfinite_zero smallNet [JsNum.nan]
     ⟨JsNum.nan, by decide, rfl⟩ (by decide)⟩

/-- Witness for C10 at a concrete network and a NaN target. -/
theorem trainStep_nonfinite_target_noop_witness :
    JsNum.nan.isFinite = false ∧
    smallNet.trainStep [JsNum.fin 1] 0 JsNum.nan = (smallNet, 0) :=
  ⟨rfl, trainStep_nonfinite_target_noop smallNet [JsNum.fin 1] 0
    JsNum.nan rfl⟩

/-- Witness for C8 (amended) at `deadNetSmall`, whose hidden ReLU unit is
dead on input `[-1]` and whose incoming weight `5` is inside the clamp
interval. -/
theorem relu_dead_unit_weights_unchanged_witness :
    (JsNum.fin 3).isFinite = true ∧
    ((deadNetSmall.forward [JsNum.fin (-1)]).1.layers.getD 0
      default).activation = Activation.relu ∧
    (((deadNetSmall.forward [JsNum.fin (-1)]).1.layers.getD 0
      default).lastPreActivation.getD []).getD 0 0 ≤ 0 ∧
    (∀ row ∈ ((deadNetSmall.forward [JsNum.fin (-1)]).1.layers.getD 0
      default).weights, -WEIGHT_CLIP ≤ row.getD 0 0 ∧
        row.getD 0 0 ≤ WEIGHT_CLIP) ∧
    (((deadNetSmall.trainStep [JsNum.fin (-1)] 0
        (JsNum.fin 3)).1.layers.getD 0 default).weights.getD 0 []).getD 0 0 =
      ((deadNetSmall.layers.getD 0 default).weights.getD 0 []).getD 0 0 := by
  have hfwd : deadNetSmall.forward [JsNum.fin (-1)] =
    (NeuralNetwork.mk
      [Layer.mk [[5]] [0] Activation.relu (some [-1]) (some [0])
        (some [-5]),
       Layer.mk [[1]] [0] Activation.linear (some [0]) (some [0]) (some [0])]
      (1/100), [0]) := by
    norm_num [deadNetSmall, NeuralNetwork.forward, forwardLayers,
      layerForward, preActivationAt, JsNum.isFinite, JsNum.toQ, jsClamp,
      max_def, min_def, listRange_one]
  refine ⟨rfl, ?_, ?_, ?_, ?_⟩
  · rw [hfwd]
    rfl
  · rw [hfwd]
    norm_num
  · rw [hfwd]
    intro row hr
    simp only [List.getD_cons_zero, List.mem_singleton] at hr
    subst hr
    norm_num [WEIGHT_CLIP]
  · exact relu_dead_unit_weights_unchanged deadNetSmall [JsNum.fin (-1)] 0
      (JsNum.fin 3) 0 0 rfl (by rw [hfwd]; rfl) (by rw [hfwd]; norm_num)
      (by
        rw [hfwd]
        intro row hr
        simp only [List.getD_cons_zero, List.mem_singleton] at hr
        subst hr
        norm_num [WEIGHT_CLIP]) 0
